import Mathlib

/-!
Verification development for the Hexagon HVX half-precision 2D convolution
kernel (src/runtime/hexagon/ops/conv2d_fp16_hvx.cc).

The kernel's vector registers (HVX_Vector, 128 bytes) are modelled as 64
lanes of 16-bit values.  A lane holding an IEEE half-precision (fp16) or a
qf16 number is modelled by the exact rational value it denotes; the qf16
"extended-precision intermediate" format (spec glossary) is modelled as exact
rational arithmetic, and the narrowing conversion back to fp16
(Q6_Vhf_equals_Vqf16) is modelled by `roundHf`, IEEE round-to-nearest-even at
half precision.  Lane masks built from the bit patterns 0xFFFF/0x0000 are
modelled by the lane values 65535 and 0; a bitwise AND of a lane with the
all-ones pattern preserves the lane and with the all-zeros pattern clears it
(the value of the cleared lane, +0.0, is the rational 0), and a bitwise OR in
which one operand's lane is the all-zeros pattern returns the other lane.
C "int" arithmetic is modelled on ℤ: all division/modulus operands reached
by the kernel are non-negative, where C truncating division agrees with
Lean's Euclidean `/` and `%`.

Functions of this repository that the kernel calls but whose definitions are
not under src/ (they live in tvm/runtime/hexagon/ops/conv2d.h) are modelled
from the spec and marked as such in their doc comments.
-/

namespace HexConv

/-- Round-half-to-even of a rational to an integer (banker's rounding). -/
def roundHalfEven (x : ℚ) : ℤ :=
  let n := ⌊x⌋
  let f := x - n
  if f < 1/2 then n
  else if 1/2 < f then n + 1
  else if n % 2 = 0 then n else n + 1

/-- Binade exponent used by half-precision rounding: the largest e in
[-14, 15] with 2^e ≤ |x|, clamped to -14 (the subnormal/minimum-exponent
binade) when |x| < 2^-14. -/
def hfExp (x : ℚ) : ℤ :=
  (List.range 30).foldl (fun acc k =>
    let e : ℤ := 15 - k
    if acc = -14 ∧ (2:ℚ)^e ≤ |x| then e else acc) (-14)

/-- IEEE half-precision round to nearest, ties to even: quantize to the
10-fraction-bit grid of the operand's binade (subnormals share the -14
binade).  Values beyond the largest finite half-precision number 65504 are
saturated to it; the kernel never produces such values in the claims below. -/
def roundHf (x : ℚ) : ℚ :=
  let e := hfExp x
  let q : ℚ := (2:ℚ)^(e - 10)
  let r := (roundHalfEven (x / q) : ℚ) * q
  if r < -65504 then -65504 else if 65504 < r then 65504 else r

/-- One HVX vector register: 64 lanes of 16-bit values, each lane modelled by
the rational value it denotes. -/
abbrev Vec := Fin 64 → ℚ

/-- Q6_V_vzero: all lanes the zero bit pattern. -/
def Q6_V_vzero : Vec := fun _ => 0

/-- Q6_Vh_vsplat_R: broadcast one 16-bit value to all 64 lanes. -/
def Q6_Vh_vsplat_R (x : ℚ) : Vec := fun _ => x

/-- Q6_Vh_vshuffe_VhVh u v: even-halfword shuffle; result lane 2k is lane 2k
of v, result lane 2k+1 is lane 2k of u. -/
def Q6_Vh_vshuffe_VhVh (u v : Vec) : Vec := fun i =>
  if i.val % 2 = 0 then v i else u ⟨i.val - 1, by omega⟩

/-- Q6_V_vnot_V: bitwise NOT of each 16-bit lane; on a 16-bit pattern x this
is 65535 - x. -/
def Q6_V_vnot_V (v : Vec) : Vec := fun i => 65535 - v i

/-- Q6_V_vand_VV: bitwise AND.  In every use in this kernel the second
operand is a lane mask whose lanes are the all-ones pattern 0xFFFF (AND
preserves the first operand's lane) or the all-zeros pattern (AND clears the
lane to +0.0, the rational 0). -/
def Q6_V_vand_VV (v m : Vec) : Vec := fun i =>
  if m i = 65535 then v i else 0

/-- Q6_V_vor_VV: bitwise OR.  In every use in this kernel at least one
operand's lane is the all-zeros pattern, where OR returns the other lane's
pattern; a lane whose rational value is 0 denotes the ±0.0 pattern and OR
with it leaves the other lane's value unchanged. -/
def Q6_V_vor_VV (u v : Vec) : Vec := fun i =>
  if u i = 0 then v i else u i

/-- Q6_V_vror_VR: rotate the 128-byte register right by r bytes, so halfword
lane i of the result is lane (i + r/2) mod 64 of the source. -/
def Q6_V_vror_VR (v : Vec) (r : ℤ) : Vec := fun i =>
  v ⟨(i.val + ((r / 2) % 64).toNat) % 64, Nat.mod_lt _ (by omega)⟩

/-- Q6_Vqf16_vmpy_VhfVhf: lanewise multiply of two fp16 vectors into the
qf16 extended-precision format, modelled as the exact product. -/
def Q6_Vqf16_vmpy_VhfVhf (a b : Vec) : Vec := fun i => a i * b i

/-- Q6_Vqf16_vadd_Vqf16Vqf16: lanewise qf16 addition, modelled exact. -/
def Q6_Vqf16_vadd_Vqf16Vqf16 (a b : Vec) : Vec := fun i => a i + b i

/-- Q6_Vqf16_vadd_VhfVhf: lanewise addition of two fp16 vectors into qf16,
modelled as the exact sum. -/
def Q6_Vqf16_vadd_VhfVhf (a b : Vec) : Vec := fun i => a i + b i

/-- Q6_Vhf_equals_Vqf16: narrow each qf16 lane back to IEEE half precision
(the one rounding step of the lane pipeline). -/
def Q6_Vhf_equals_Vqf16 (a : Vec) : Vec := fun i => roundHf (a i)

/-- getOddEvenOnes (source lines 89-96): two masks with all-ones in the even
lanes (first) and in the odd lanes (second). -/
def getOddEvenOnes : Vec × Vec :=
  let v0 := Q6_V_vzero
  let v1 := Q6_Vh_vsplat_R 65535
  let v1e := Q6_Vh_vshuffe_VhVh v0 v1
  let v1o := Q6_V_vnot_V v1e
  (v1e, v1o)

/-- getInputVector (source lines 110-122): splat the two adjacent channel
elements at base_ptr[0] and base_ptr[2] of the activation memory into the
even and odd lanes respectively.  Memory is halfword addressed. -/
def getInputVector (mem : ℤ → ℚ) (base_ptr : ℤ) : Vec :=
  let v1 := Q6_Vh_vsplat_R (mem base_ptr)
  let v2 := Q6_Vh_vsplat_R (mem (base_ptr + 2))
  let oddEvenOnes := getOddEvenOnes
  let v1e := oddEvenOnes.1
  let v1o := oddEvenOnes.2
  let v_even_vals := Q6_V_vand_VV v1 v1e
  let v_odd_vals := Q6_V_vand_VV v2 v1o
  Q6_V_vor_VV v_even_vals v_odd_vals

/-- computeOuputVector (source lines 139-147): multiply activations and
weights into qf16, rotate by one 16-bit element and add to reduce the two
input channels, convert back to fp16, and keep only the even lanes. -/
def computeOuputVector (act_vec wgt_vec : Vec) : Vec :=
  let v_res := Q6_Vqf16_vmpy_VhfVhf act_vec wgt_vec
  let v_rot := Q6_V_vror_VR v_res 2
  let v_reduced := Q6_Vqf16_vadd_Vqf16Vqf16 v_res v_rot
  let v_hf := Q6_Vhf_equals_Vqf16 v_reduced
  let v1e := getOddEvenOnes.1
  let v_reduced_even_lanes := Q6_V_vand_VV v_hf v1e
  v_reduced_even_lanes

lemma getOddEvenOnes_fst (i : Fin 64) :
    getOddEvenOnes.1 i = if i.val % 2 = 0 then 65535 else 0 := by
  simp [getOddEvenOnes, Q6_Vh_vshuffe_VhVh, Q6_Vh_vsplat_R, Q6_V_vzero]

lemma getOddEvenOnes_snd (i : Fin 64) :
    getOddEvenOnes.2 i = if i.val % 2 = 0 then 0 else 65535 := by
  simp only [getOddEvenOnes, Q6_V_vnot_V, Q6_Vh_vshuffe_VhVh, Q6_Vh_vsplat_R,
    Q6_V_vzero]
  split <;> norm_num

lemma vand_even_mask_apply (v : Vec) (i : Fin 64) :
    Q6_V_vand_VV v getOddEvenOnes.1 i = if i.val % 2 = 0 then v i else 0 := by
  have hm := getOddEvenOnes_fst i
  simp only [Q6_V_vand_VV, hm]
  split <;> norm_num

lemma vand_odd_mask_apply (v : Vec) (i : Fin 64) :
    Q6_V_vand_VV v getOddEvenOnes.2 i = if i.val % 2 = 0 then 0 else v i := by
  have hm := getOddEvenOnes_snd i
  simp only [Q6_V_vand_VV, hm]
  split <;> norm_num

lemma ite_zero_self (x : ℚ) : (if x = 0 then (0:ℚ) else x) = x := by
  split <;> simp [*]

lemma getInputVector_apply (mem : ℤ → ℚ) (p : ℤ) (i : Fin 64) :
    getInputVector mem p i = if i.val % 2 = 0 then mem p else mem (p + 2) := by
  simp only [getInputVector, Q6_V_vor_VV, Q6_Vh_vsplat_R, vand_even_mask_apply,
    vand_odd_mask_apply]
  by_cases h2 : i.val % 2 = 0
  · simp [h2, ite_zero_self]
  · simp [h2]

lemma vror_two_apply (v : Vec) (i : Fin 64) :
    Q6_V_vror_VR v 2 i = v ⟨(i.val + 1) % 64, Nat.mod_lt _ (by omega)⟩ := by
  have : (((2:ℤ) / 2) % 64).toNat = 1 := by decide
  simp [Q6_V_vror_VR, this]

lemma vror_neg_two_apply (v : Vec) (i : Fin 64) :
    Q6_V_vror_VR v (-2) i = v ⟨(i.val + 63) % 64, Nat.mod_lt _ (by omega)⟩ := by
  have : ((((-2):ℤ) / 2) % 64).toNat = 63 := by decide
  simp [Q6_V_vror_VR, this]

/-- Even-lane behaviour of one tap's multiply-reduce: the sum of the two
input-channel products is formed exactly (in qf16) and rounded once. -/
lemma computeOuputVector_even (a w : Vec) (i : Fin 64) (h : i.val % 2 = 0) :
    computeOuputVector a w i =
      roundHf (a i * w i + a (i + 1) * w (i + 1)) := by
  have hv : (i + 1 : Fin 64) = ⟨(i.val + 1) % 64, Nat.mod_lt _ (by omega)⟩ := by
    apply Fin.ext
    simp [Fin.val_add]
  simp only [computeOuputVector, vand_even_mask_apply]
  rw [if_pos h]
  simp only [Q6_Vhf_equals_Vqf16, Q6_Vqf16_vadd_Vqf16Vqf16,
    Q6_Vqf16_vmpy_VhfVhf, vror_two_apply, hv]

/-- Odd lanes of the multiply-reduce result are cleared by the even mask. -/
lemma computeOuputVector_odd (a w : Vec) (i : Fin 64) (h : i.val % 2 = 1) :
    computeOuputVector a w i = 0 := by
  simp only [computeOuputVector, vand_even_mask_apply]
  rw [if_neg (by omega)]

/-- Shape of a blocked (tiled) tensor: the tile-grid extents along height,
width and channel (the DLTensor shape entries 1, 2 and 3; entry 0 is the
batch). -/
structure BlockedShape where
  yTiles : ℤ
  xTiles : ℤ
  cTiles : ℤ

/-- A blocked tensor resident in scratch memory: its tile-grid shape and its
halfword-addressed contents. -/
structure BlockedTensor where
  shape : BlockedShape
  mem : ℤ → ℚ

/-- Modelled from the spec (the definition lives in conv2d.h, absent from
src/): nhwc_at resolves the first element of tile (y, x, c) of a blocked
tensor.  Per spec section 3, tiles are 2048 bytes (1024 halfwords) each,
contiguous, addressed row-major by (tile_y, tile_x, tile_c).  The result is
a halfword address into the tensor's memory. -/
def nhwc_at (t : BlockedShape) (n y x c : ℤ) : ℤ :=
  n + ((y * t.xTiles + x) * t.cTiles + c) * 1024

/-- getElementPtr (source lines 69-75): resolve the halfword address of one
element inside a blocked tensor from its tile index and in-tile offsets. -/
def getElementPtr (block_out_y block_out_x block_out_c yi xio ci xii : ℤ)
    (tensor : BlockedShape) : ℤ :=
  let block_ptr := nhwc_at tensor 0 block_out_y block_out_x block_out_c
  let block_offset := yi * 128 + xio * 64 + ci * 2 + xii
  block_ptr + block_offset

/-- round_down (source line 149).  The C modulus agrees with Lean's on the
non-negative operands that occur. -/
def round_down (v base : ℤ) : ℤ := v - (v % base)

/-- Modelled from the spec (conv2d.h, absent from src/): round v up to the
next multiple of base; spec section 4.2 requires the channel count to be
rounded up to a multiple of 2 for the pairwise channel loop. -/
def round_up (v base : ℤ) : ℤ := round_down (v + base - 1) base

/-- Prepared weights as returned by prepare_hwio: the chunk-grid shape (the
DLTensor shape entries) and, for each chunk (filter-height group, width
group, input-channel block, output-channel unit), its halfword-addressed
contents. -/
structure WgtTensor where
  shape0 : ℤ
  shape1 : ℤ
  shape2 : ℤ
  shape3 : ℤ
  chunk : ℤ → ℤ → ℤ → ℤ → ℤ → ℚ

/-- Modelled from the spec (conv2d.h, absent from src/): hwio_at resolves
the weight-chunk handle for the given chunk coordinates; here, the chunk's
contents as a halfword-addressed function. -/
def hwio_at (t : WgtTensor) (fch fcw cblk oc : ℤ) : ℤ → ℚ :=
  t.chunk fch fcw cblk oc

/-- Modelled from the spec (conv2d.h, absent from src/): the halfword offset
inside a chunk of the 64-element weight vector for tap (fy, fx) of a width
group of max_x columns and the input-channel pair starting at ci
("scatter-matrix" order, spec section 4.2: one vector load yields the
weights of 32 output channels for one tap and one channel pair).  The exact
in-chunk formula is not in src/; the model packs one 64-halfword vector per
(tap, channel pair), taps major. -/
def hwio_to_sm_16b (max_x fy fx ci xii : ℤ) : ℤ :=
  ((fy * max_x + fx) * 16 + ci / 2) * 64 + xii

/-- Load one HVX vector (64 halfword lanes) from halfword-addressed memory. -/
def loadVec (mem : ℤ → ℚ) (addr : ℤ) : Vec := fun i => mem (addr + i.val)

/-- Store one HVX vector at a halfword address. -/
def storeVec (mem : ℤ → ℚ) (addr : ℤ) (v : Vec) : ℤ → ℚ := fun a =>
  if h : addr ≤ a ∧ a < addr + 64 then v ⟨(a - addr).toNat, by omega⟩ else mem a

/-- The parameters captured by the computeConv closure (source lines
262-263): filter extents, strides, and the three tensors. -/
structure ConvCtx where
  filt_height : ℤ
  filt_width : ℤ
  filt_idepth : ℤ
  stride_h : ℤ
  stride_w : ℤ
  cr_out : BlockedShape
  cr_act : BlockedTensor
  cr_filt : WgtTensor

/-- wgt_chunk_thin_width (source lines 223-224). -/
def wgt_chunk_thin_width (filt_width : ℤ) : ℤ :=
  filt_width - round_down filt_width 4

/-- Width-group index fcw of tap column fw (source lines 276-279). -/
def fcwOf (thin fw : ℤ) : ℤ := if fw ≥ thin then (fw - thin) / 4 + 1 else 0

/-- In-group offset fx of tap column fw (source line 280). -/
def fxOf (thin fw : ℤ) : ℤ := if fw < thin then fw else (fw - thin) % 4

/-- out_width_idx (source lines 292 and 326). -/
def out_width_idx (out_act_x wo wi : ℤ) : ℤ := out_act_x * 4 + wo * 2 + wi

/-- act_width_access_idx (source lines 293 and 327). -/
def act_width_access_idx (out_act_x wo wi stride_w fw : ℤ) : ℤ :=
  out_width_idx out_act_x wo wi * stride_w + fw

/-- out_height_idx (source line 298). -/
def out_height_idx (out_act_y h : ℤ) : ℤ := out_act_y * 8 + h

/-- act_height_access_idx (source line 299). -/
def act_height_access_idx (out_act_y h stride_h fh : ℤ) : ℤ :=
  out_height_idx out_act_y h * stride_h + fh

/-- The activation element address of one tap read at width-inner wi (source
lines 292-306 and 326-333): the activation access index is decomposed into
the activation's own tile coordinates and passed to getElementPtr.  All
division operands are non-negative in every reachable call, where C
truncating division agrees with Lean's. -/
def actElementPtr (ctx : ConvCtx)
    (out_act_y out_act_x h wo wi fh fw ci out_act_cc : ℤ) : ℤ :=
  let awi := act_width_access_idx out_act_x wo wi ctx.stride_w fw
  let true_out_act_x := awi / 4
  let true_wo := (awi % 4) / 2
  let true_wi := awi % 2
  let ahi := act_height_access_idx out_act_y h ctx.stride_h fh
  let true_out_act_y := ahi / 8
  let true_h := ahi % 8
  getElementPtr true_out_act_y true_out_act_x out_act_cc true_h true_wo ci true_wi
    ctx.cr_act.shape

/-- The activation vector fetched for one tap at width-inner wi (source
lines 305-307 and 332-334). -/
def tapActVec (ctx : ConvCtx) (out_act_y out_act_x h wo wi fh fw c : ℤ) : Vec :=
  getInputVector ctx.cr_act.mem
    (actElementPtr ctx out_act_y out_act_x h wo wi fh fw (c % 32) (c / 32))

/-- The weight vector loaded for one tap (source lines 275-319): chunk
coordinates from the tap position, in-chunk offset from hwio_to_sm_16b. -/
def tapWeightsVec (ctx : ConvCtx) (out_c fh fw c : ℤ) : Vec :=
  let thin := wgt_chunk_thin_width ctx.filt_width
  let fch := fh / 8
  let fcw := fcwOf thin fw
  let fx := fxOf thin fw
  let fy := fh % 8
  let out_act_cc := c / 32
  let ci := c % 32
  let wgt_chunk := hwio_at ctx.cr_filt fch fcw out_act_cc out_c
  let max_x := if fcw = 0 then thin else 4
  let wgt_chunk_offset := hwio_to_sm_16b max_x fy fx ci 0
  loadVec wgt_chunk wgt_chunk_offset

/-- One iteration of the computeConv accumulation loops (source lines
273-352): the partial product for width-inner 0, then - unless skip_wi_1 -
the width-inner 1 partial product rotated into the odd lanes and merged by
OR, and the accumulator updated through a qf16 add followed by the narrowing
conversion back to fp16. -/
def convTapStep (ctx : ConvCtx) (out_act_y out_act_x out_c h wo : ℕ)
    (skip_wi_1 : Bool) (existing_out_vec : Vec) (tap : ℕ × ℕ × ℕ) : Vec :=
  let fh : ℤ := tap.1
  let fw : ℤ := tap.2.1
  let c : ℤ := tap.2.2
  let act_vec := tapActVec ctx out_act_y out_act_x h wo 0 fh fw c
  let weights_vec := tapWeightsVec ctx out_c fh fw c
  let reduced_vec_even_elements := computeOuputVector act_vec weights_vec
  if !skip_wi_1 then
    let act_vec1 := tapActVec ctx out_act_y out_act_x h wo 1 fh fw c
    let reduced_vec_odd_elements :=
      Q6_V_vror_VR (computeOuputVector act_vec1 weights_vec) (-2)
    let out_final := Q6_V_vor_VV reduced_vec_even_elements reduced_vec_odd_elements
    Q6_Vhf_equals_Vqf16 (Q6_Vqf16_vadd_VhfVhf out_final existing_out_vec)
  else
    Q6_Vhf_equals_Vqf16
      (Q6_Vqf16_vadd_VhfVhf reduced_vec_even_elements existing_out_vec)

/-- The (fh, fw, c) tap enumeration of the computeConv loops (source lines
273-282): filter rows, filter columns, and input channels in steps of 2 up
to round_up(filt_idepth, 2). -/
def tapList (ctx : ConvCtx) : List (ℕ × ℕ × ℕ) :=
  (List.range ctx.filt_height.toNat).flatMap fun fh =>
    (List.range ctx.filt_width.toNat).flatMap fun fw =>
      (List.range ((round_up ctx.filt_idepth 2).toNat / 2)).map fun k => (fh, fw, 2 * k)

/-- The accumulator value computeConv stores: the fold of convTapStep over
the tap list, started from the loaded current output vector. -/
def computeConvAcc (ctx : ConvCtx) (out_act_y out_act_x out_c h wo : ℕ)
    (skip_wi_1 : Bool) (existing_out_vec : Vec) : Vec :=
  (tapList ctx).foldl (convTapStep ctx out_act_y out_act_x out_c h wo skip_wi_1)
    existing_out_vec

/-- computeConv (source lines 262-356): load the current output vector at
the (row, width-outer) position, accumulate every tap, store the result
back once. -/
def computeConv (ctx : ConvCtx) (out_mem : ℤ → ℚ)
    (out_act_y out_act_x out_c h wo : ℕ) (skip_wi_1 : Bool) : ℤ → ℚ :=
  let out_element_ptr :=
    getElementPtr out_act_y out_act_x out_c h wo 0 0 ctx.cr_out
  let existing_out_vec := loadVec out_mem out_element_ptr
  storeVec out_mem out_element_ptr
    (computeConvAcc ctx out_act_y out_act_x out_c h wo skip_wi_1 existing_out_vec)

/-- One scheduled computeConv invocation of the driver loop nest. -/
structure ConvCall where
  out_y : ℕ
  out_x : ℕ
  out_c : ℕ
  h : ℕ
  wo : ℕ
  skip : Bool
deriving DecidableEq

/-- computeFullWidth (source lines 358-362): both width-outer positions of
one (row, column-tile) position. -/
def computeFullWidthCalls (out_y out_x out_c h : ℕ) : List ConvCall :=
  (List.range 2).map fun wo => ⟨out_y, out_x, out_c, h, wo, false⟩

/-- computePartialWidth (source lines 364-374): on the rightmost column tile,
the paired width-outer positions below (out_width mod 4) / 2 and then - when
the true output width is odd - one single-sub-column call with skip_wi_1. -/
def computePartialWidthCalls (out_width o_width out_y out_c h : ℕ) : List ConvCall :=
  let out_x := o_width - 1
  ((List.range ((out_width % 4) / 2)).map fun wo =>
      ⟨out_y, out_x, out_c, h, wo, false⟩)
    ++ (if out_width % 2 ≠ 0 then
        [⟨out_y, out_x, out_c, h, (out_width % 4) / 2, true⟩] else [])

/-- One full row tile of the driver (source lines 379-388): every full
column tile (8 rows each, both width-outer positions), then the
partial-width path for each of the 8 rows. -/
def rowTileCalls (out_width o_width out_c out_act_y : ℕ) : List ConvCall :=
  ((List.range (out_width / 4)).flatMap fun out_act_x =>
    (List.range 8).flatMap fun h => computeFullWidthCalls out_act_y out_act_x out_c h)
    ++ ((List.range 8).flatMap fun h =>
      computePartialWidthCalls out_width o_width out_act_y out_c h)

/-- The bottom partial row tile of the driver (source lines 391-398): for
each valid remainder row of the last row tile, the full column tiles and
then the partial-width path. -/
def bottomRowCalls (out_height out_width o_height o_width out_c : ℕ) : List ConvCall :=
  (List.range (out_height % 8)).flatMap fun h =>
    ((List.range (out_width / 4)).flatMap fun out_act_x =>
      computeFullWidthCalls (o_height - 1) out_act_x out_c h)
      ++ computePartialWidthCalls out_width o_width (o_height - 1) out_c h

/-- The driver schedule of conv_layer_fp16_hvx (source lines 376-399), in
program order. -/
def convLayerCalls (out_height out_width o_height o_width num_out_c : ℕ) :
    List ConvCall :=
  (List.range num_out_c).flatMap fun out_c =>
    ((List.range (out_height / 8)).flatMap fun out_act_y =>
      rowTileCalls out_width o_width out_c out_act_y)
      ++ bottomRowCalls out_height out_width o_height o_width out_c

/-- A flat tensor handle: its first shape entry and its halfword-addressed
contents (of the bias only the shape entry is ever read, for logging). -/
structure FlatTensor where
  shape0 : ℤ
  mem : ℤ → ℚ

/-- A logical 4D shape (batch, height, width, channel) as carried by the
shape-only DLTensors. -/
structure Shape4 where
  s0 : ℤ
  s1 : ℤ
  s2 : ℤ
  s3 : ℤ

/-- conv_layer_fp16_hvx (source lines 180-400).  Returns none when one of
the function's ICHECK assertions fires (the process aborts before any store
to the output), otherwise the blocked output memory after running the whole
schedule.  The relu flag, the bias tensor, the pad offsets and the
zero_block address are parameters of the source function that the
computation never consults: the pads are only range-checked (and logged),
the bias only contributes its length to a log line, and relu and zero_block
are unused. -/
def conv_layer_fp16_hvx (cr_out : BlockedTensor) (cr_act : BlockedTensor)
    (cr_filt : WgtTensor) (out_shape act_shape : Shape4) (bias_flat : FlatTensor)
    (filt_shape : Shape4) (pad_shape : ℤ × ℤ) (relu : Bool)
    (stride_h stride_w : ℤ) (zero_block : ℤ) : Option (ℤ → ℚ) :=
  let filt_height := filt_shape.s0
  let filt_width := filt_shape.s1
  let filt_idepth := filt_shape.s2
  let pad_top := pad_shape.1
  let pad_left := pad_shape.2
  if 8 ≤ pad_top then none
  else if 4 ≤ pad_left then none
  else if cr_act.shape.cTiles ≠ cr_filt.shape2 then none
  else if cr_out.shape.cTiles ≠ cr_filt.shape3 then none
  else
    let o_height := cr_out.shape.yTiles
    let o_width := cr_out.shape.xTiles
    let out_height := out_shape.s1
    let out_width := out_shape.s2
    let ctx : ConvCtx :=
      ⟨filt_height, filt_width, filt_idepth, stride_h, stride_w,
        cr_out.shape, cr_act, cr_filt⟩
    some ((convLayerCalls out_height.toNat out_width.toNat o_height.toNat
        o_width.toNat cr_filt.shape3.toNat).foldl
      (fun m call =>
        computeConv ctx m call.out_y call.out_x call.out_c call.h call.wo call.skip)
      cr_out.mem)

/-- A flat DLTensor: logical 4D shape and halfword-addressed contents. -/
structure DLTensor4 where
  shape : Shape4
  mem : ℤ → ℚ

/-- Modelled from the spec (conv2d.h, absent from src/): blockize a flat
NHWC tensor (spec section 4.1).  The blocked buffer holds, at each in-tile
position, the flat element it maps to under the section-3 layout, and 0 in
the zero-filled partial-tile padding.  With copy_data false (the output
scratch buffer) the buffer is only allocated; the kernel's contract requires
it pre-zeroed (spec section 4.4 step 1), which the model takes literally. -/
def prepare_nhwc (t : DLTensor4) (copy_data : Bool) : BlockedTensor :=
  let h := t.shape.s1
  let w := t.shape.s2
  let c := t.shape.s3
  let sh : BlockedShape := ⟨(h + 7) / 8, (w + 3) / 4, (c + 31) / 32⟩
  if copy_data then
    ⟨sh, fun a =>
      let blk := a / 1024
      let off := a % 1024
      let bc := blk % sh.cTiles
      let bx := (blk / sh.cTiles) % sh.xTiles
      let b_y := blk / (sh.cTiles * sh.xTiles)
      let yi := off / 128
      let xio := (off % 128) / 64
      let ci := (off % 64) / 2
      let xii := off % 2
      let y := b_y * 8 + yi
      let x := bx * 4 + xio * 2 + xii
      let ch := bc * 32 + ci
      if 0 ≤ a ∧ y < h ∧ x < w ∧ ch < c then t.mem ((y * w + x) * c + ch) else 0⟩
  else ⟨sh, fun _ => 0⟩

/-- Modelled from the spec (conv2d.h, absent from src/): prepare the weight
chunk table (spec section 4.2).  The chunk grid is ceil(H/8) height groups
by the width groups (a thin remainder group when W mod 4 is nonzero, then
the floor(W/4) full groups) by ceil(I/32) channel blocks by ceil(O/32)
output-channel units; within a chunk, one 64-halfword vector per (tap,
input-channel pair) holds the weights of 32 output channels in the
output-channel-major, channel-pair-minor lane order of spec section 4.3. -/
def prepare_hwio (t : DLTensor4) : WgtTensor :=
  let fH := t.shape.s0
  let fW := t.shape.s1
  let fI := t.shape.s2
  let fO := t.shape.s3
  let thin := fW % 4
  ⟨(fH + 7) / 8, (if fW % 4 = 0 then 0 else 1) + fW / 4, (fI + 31) / 32,
    (fO + 31) / 32,
    fun fch fcw cblk oc off =>
      let v := off / 64
      let l := off % 64
      let max_x := if fcw = 0 then thin else 4
      let cp := v % 16
      let t2 := v / 16
      let fx := t2 % max_x
      let fy := t2 / max_x
      let fw := if fcw = 0 then fx else thin + (fcw - 1) * 4 + fx
      let fh := fch * 8 + fy
      let ic := cblk * 32 + cp * 2 + l % 2
      let ocFull := oc * 32 + l / 2
      if 0 ≤ off ∧ fh < fH ∧ fw < fW ∧ ic < fI ∧ ocFull < fO then
        t.mem (((fh * fW + fw) * fI + ic) * fO + ocFull)
      else 0⟩

/-- Modelled from the spec (conv2d.h, absent from src/): the weight chunk
count of spec section 4.2, sizing the chunk pointer table. -/
def calculate_num_weight_chunks (s : Shape4) : ℤ :=
  ((s.s0 + 7) / 8) * ((if s.s1 % 4 = 0 then 0 else 1) + s.s1 / 4)
    * ((s.s2 + 31) / 32) * ((s.s3 + 31) / 32)

/-- Modelled from the spec (conv2d.h, absent from src/): deblockize the
blocked output back to flat NHWC over the valid logical extent (spec
section 4.1). -/
def deblockize_hwc_16b (blocked : ℤ → ℚ) (h w c : ℤ) : ℤ → ℚ := fun a =>
  let ch := a % c
  let x := (a / c) % w
  let y := a / (c * w)
  let wT := (w + 3) / 4
  let cT := (c + 31) / 32
  blocked (((y / 8 * wT + x / 4) * cT + ch / 32) * 1024
    + (y % 8) * 128 + ((x % 4) / 2) * 64 + (ch % 32) * 2 + x % 2)

/-- conv2d_packed_fp16 (source lines 405-489): the packed entry point.  The
ICHECK contract checks are modelled as error results produced in source
order, before any output is computed; a successful run returns the flat
output contents.  The argument-count and type-code checks concern the packed
call convention, outside the modelled data path (spec section 1 scope). -/
def conv2d_packed_fp16 (act_flat wgt_flat : DLTensor4)
    (pad_top pad_left stride_h stride_w : ℤ) (out_flat : DLTensor4) :
    Except String (ℤ → ℚ) :=
  if act_flat.shape.s0 ≠ 1 then
    Except.error "Input batch size more than 1 is not supported yet"
  else if out_flat.shape.s0 ≠ 1 then
    Except.error "Output batch size more than 1 is not supported yet"
  else
    let act_vtcm := prepare_nhwc act_flat true
    if wgt_flat.shape.s0 = 0 then Except.error "Weights height should not be zero"
    else if wgt_flat.shape.s1 = 0 then Except.error "Weights width should not be zero"
    else if wgt_flat.shape.s2 = 0 then
      Except.error "Weights input channels should not be zero"
    else if wgt_flat.shape.s3 = 0 then
      Except.error "Weights output channels should not be zero"
    else
      let wgt_vtcm := prepare_hwio wgt_flat
      let out_vtcm := prepare_nhwc out_flat false
      let zero_block : ℤ := 0
      let bias_flat : FlatTensor := ⟨wgt_flat.shape.s3, fun _ => 0⟩
      match conv_layer_fp16_hvx out_vtcm act_vtcm wgt_vtcm out_flat.shape
          act_flat.shape bias_flat wgt_flat.shape (pad_top, pad_left) false
          stride_h stride_w zero_block with
      | none => Except.error "contract violation in conv_layer_fp16_hvx"
      | some m =>
          Except.ok
            (deblockize_hwc_16b m out_flat.shape.s1 out_flat.shape.s2 out_flat.shape.s3)

/-- Modelled from the spec for claim C4 (section 4.1): addressElement must
fail - a contract violation - when any in-tile index is outside rows 0-7,
width_outer 0-1, channel 0-31, width_inner 0-1, and otherwise resolves the
section-3 offset formula. -/
def addressElement (block_out_y block_out_x block_out_c yi xio ci xii : ℤ)
    (tensor : BlockedShape) : Option ℤ :=
  if 0 ≤ yi ∧ yi < 8 ∧ 0 ≤ xio ∧ xio < 2 ∧ 0 ≤ ci ∧ ci < 32 ∧ 0 ≤ xii ∧ xii < 2 then
    some (nhwc_at tensor 0 block_out_y block_out_x block_out_c
      + (yi * 128 + xio * 64 + ci * 2 + xii))
  else none

/-- Modelled from the claim C3 wording: the first width group is W mod 4
wide - or a full group of 4 when W is an exact multiple of 4 - followed by
the floor(W/4) full groups of 4; this is the group index of tap column fw
under that partition. -/
def claimFcw (W fw : ℤ) : ℤ :=
  let thin := if W % 4 = 0 then 4 else W % 4
  if fw < thin then 0 else (fw - thin) / 4 + 1

/-- Modelled from the claim C3 wording: the in-group offset of tap column fw
under the claimed partition. -/
def claimFx (W fw : ℤ) : ℤ :=
  let thin := if W % 4 = 0 then 4 else W % 4
  if fw < thin then fw else (fw - thin) % 4

/-- Modelled from the claim C3 wording: the widths of the claimed groups in
order. -/
def claimWidthGroupSizes (W : ℤ) : List ℤ :=
  (if W % 4 = 0 then 4 else W % 4) :: List.replicate (W / 4).toNat 4

/-- Modelled from the spec for claim C1 (sections 3 and 4.4): under implicit
padding, tap row fh of output row index out_height_idx maps to activation
row out_height_idx * stride_h + fh - pad_top; a negative value is a top
out-of-range read. -/
def specMappedActRow (out_height_idx stride_h fh pad_top : ℤ) : ℤ :=
  out_height_idx * stride_h + fh - pad_top

/-- Modelled from the spec for claim C1: the column analogue; a negative
value is a left out-of-range read. -/
def specMappedActCol (out_width_idx stride_w fw pad_left : ℤ) : ℤ :=
  out_width_idx * stride_w + fw - pad_left

/-- Modelled from the spec for claim C1: one tap's activation fetch under
the spec's zero-block substitution - the pad offsets shift the mapped
location, and a location negative in row or column is served from the
pre-zeroed zero block instead of the activation tensor. -/
def specTapActVecPadded (ctx : ConvCtx) (pad_top pad_left : ℤ)
    (out_act_y out_act_x h wo wi fh fw c : ℤ) : Vec :=
  let r := specMappedActRow (out_height_idx out_act_y h) ctx.stride_h fh pad_top
  let col := specMappedActCol (out_width_idx out_act_x wo wi) ctx.stride_w fw pad_left
  if r < 0 ∨ col < 0 then Q6_V_vzero
  else
    getInputVector ctx.cr_act.mem
      (getElementPtr (r / 8) (col / 4) (c / 32) (r % 8) ((col % 4) / 2) (c % 32)
        (col % 2) ctx.cr_act.shape)

/-- Modelled from the spec for claim C1: the single-sub-column accumulation
with the zero-block substitution applied to each tap read; identical to the
code's skip_wi_1 path except for the read source, so a difference in result
pinpoints the missing substitution. -/
def specComputeConvAccPadded (ctx : ConvCtx) (pad_top pad_left : ℤ)
    (out_act_y out_act_x out_c h wo : ℕ) (existing_out_vec : Vec) : Vec :=
  (tapList ctx).foldl (fun acc tap =>
    let act_vec := specTapActVecPadded ctx pad_top pad_left out_act_y out_act_x h
      wo 0 tap.1 tap.2.1 tap.2.2
    let weights_vec := tapWeightsVec ctx out_c tap.1 tap.2.1 tap.2.2
    Q6_Vhf_equals_Vqf16
      (Q6_Vqf16_vadd_VhfVhf (computeOuputVector act_vec weights_vec) acc))
    existing_out_vec

/-- The exact two-input-channel product sum of one tap read at width-inner
0, at lane i: the extended-precision value that the lane pipeline of
computeOuputVector rounds once. -/
def tapPairSum (ctx : ConvCtx) (out_act_y out_act_x out_c h wo : ℕ)
    (tap : ℕ × ℕ × ℕ) (i : Fin 64) : ℚ :=
  let a := tapActVec ctx out_act_y out_act_x h wo 0 tap.1 tap.2.1 tap.2.2
  let w := tapWeightsVec ctx out_c tap.1 tap.2.1 tap.2.2
  a i * w i + a (i + 1) * w (i + 1)

/-- Modelled from the spec for claim C2 (section 4.4 numeric semantics): all
intermediate sums across the filter window and channel pairs are held in the
extended-precision representation (exact), and only the final committed
value is rounded to half precision - a single narrowing per stored value. -/
def specComputeConvAccExtended (ctx : ConvCtx) (out_act_y out_act_x out_c h wo : ℕ)
    (existing_out_vec : Vec) (i : Fin 64) : ℚ :=
  roundHf ((tapList ctx).foldl
    (fun acc tap => acc + tapPairSum ctx out_act_y out_act_x out_c h wo tap i)
    (existing_out_vec i))

/-- C6: for any activation and weight registers, computeOuputVector
multiplies elementwise into the extended-precision intermediate format,
rotates the product vector by one 16-bit element and adds it to the
unrotated products - summing the two input-channel contributions per output
channel - converts the sum back to half precision with a single rounding,
and masks so only even-indexed lanes are retained (odd lanes zero): 32
meaningful output-channel partial sums in every other lane. -/
theorem C6_multiply_reduce_tap (a w : Vec) (i : Fin 64) :
    computeOuputVector a w i =
      if i.val % 2 = 0 then roundHf (a i * w i + a (i + 1) * w (i + 1)) else 0 := by
  by_cases h : i.val % 2 = 0
  · rw [if_pos h, computeOuputVector_even a w i h]
  · rw [if_neg h, computeOuputVector_odd a w i (by omega)]

/-- C5: for every blocked tensor, tile index and in-range in-tile index,
getElementPtr returns the pointer at linear offset row*128 + width_outer*64
+ channel*2 + width_inner (in 16-bit elements) from the first element of the
addressed tile, and that offset stays inside the 1024-element tile. -/
theorem C5_element_offset_formula (t : BlockedShape) (b_y b_x b_c yi xio ci xii : ℤ)
    (h1 : 0 ≤ yi) (h2 : yi < 8) (h3 : 0 ≤ xio) (h4 : xio < 2) (h5 : 0 ≤ ci)
    (h6 : ci < 32) (h7 : 0 ≤ xii) (h8 : xii < 2) :
    getElementPtr b_y b_x b_c yi xio ci xii t =
      nhwc_at t 0 b_y b_x b_c + (yi * 128 + xio * 64 + ci * 2 + xii) ∧
    0 ≤ yi * 128 + xio * 64 + ci * 2 + xii ∧
    yi * 128 + xio * 64 + ci * 2 + xii < 1024 :=
  ⟨rfl, by omega, by omega⟩

/-- Witness for C5 at the largest in-range index tuple. -/
theorem C5_element_offset_formula_witness :
    getElementPtr 1 2 3 7 1 31 1 ⟨4, 5, 6⟩ =
      nhwc_at ⟨4, 5, 6⟩ 0 1 2 3 + (7 * 128 + 1 * 64 + 31 * 2 + 1) ∧
    (0:ℤ) ≤ 7 * 128 + 1 * 64 + 31 * 2 + 1 ∧
    (7:ℤ) * 128 + 1 * 64 + 31 * 2 + 1 < 1024 :=
  C5_element_offset_formula ⟨4, 5, 6⟩ 1 2 3 7 1 31 1 (by decide) (by decide)
    (by decide) (by decide) (by decide) (by decide) (by decide) (by decide)

/-- C4 counterexample: getElementPtr performs no range validation.  With
the out-of-range row index 8 (and a one-tile tensor) it still resolves a
pointer - the first element of the next tile region - while the
spec-modelled checked addressElement rejects those indices, so the claim
that it "never resolves a pointer for such indices" is false on the code. -/
theorem C4_no_range_check_counterexample :
    getElementPtr 0 0 0 8 0 0 0 ⟨1, 1, 1⟩ = 1024 ∧
      addressElement 0 0 0 8 0 0 0 ⟨1, 1, 1⟩ = none := by
  exact ⟨by decide, by decide⟩

/-- C4 amended: getElementPtr never fails: for every index tuple, in range
or not, it resolves the pointer base + row*128 + width_outer*64 + channel*2
+ width_inner; the spec-modelled checked addressElement agrees with it on
exactly the in-range index tuples and fails on all others. -/
theorem C4_unchecked_resolution (t : BlockedShape) (b_y b_x b_c yi xio ci xii : ℤ) :
    getElementPtr b_y b_x b_c yi xio ci xii t =
      nhwc_at t 0 b_y b_x b_c + (yi * 128 + xio * 64 + ci * 2 + xii) ∧
    (addressElement b_y b_x b_c yi xio ci xii t =
        some (getElementPtr b_y b_x b_c yi xio ci xii t) ↔
      0 ≤ yi ∧ yi < 8 ∧ 0 ≤ xio ∧ xio < 2 ∧ 0 ≤ ci ∧ ci < 32 ∧ 0 ≤ xii ∧ xii < 2) := by
  refine ⟨rfl, ?_⟩
  unfold addressElement
  split
  · rename_i hr
    simp only [Option.some.injEq]
    constructor
    · intro _; exact hr
    · intro _; rfl
  · rename_i hr
    constructor
    · intro hcontra; exact absurd hcontra (by simp)
    · intro hcontra; exact absurd hcontra hr

/-- C3 counterexample: when the filter width is an exact multiple of 4 the
engine's width grouping does not follow the claimed partition: at W = 4,
tap column 0 the code computes width-group index 1 (its thin group is empty,
not "a full group of 4"), while the claimed partition puts column 0 in group
0; the claimed group widths also sum to 8, not W = 4. -/
theorem C3_thin_group_counterexample :
    fcwOf (wgt_chunk_thin_width 4) 0 = 1 ∧ claimFcw 4 0 = 0 ∧
      fcwOf (wgt_chunk_thin_width 4) 0 ≠ claimFcw 4 0 ∧
      (claimWidthGroupSizes 4).sum = 8 := by
  refine ⟨by decide, by decide, by decide, by decide⟩

/-- C3 amended: the filter width W is partitioned into a first thin group
of size W mod 4 - empty (containing no tap column) when W is an exact
multiple of 4 - at group index 0, followed by floor(W/4) full groups of
width 4 at indices 1 through floor(W/4); for every tap column fw in [0, W),
the computed fcw and fx locate fw in exactly this partition. -/
theorem C3_width_partition (W fw : ℤ) (hW : 0 < W) (h0 : 0 ≤ fw) (hfw : fw < W) :
    (fw < W % 4 →
      fcwOf (wgt_chunk_thin_width W) fw = 0 ∧ fxOf (wgt_chunk_thin_width W) fw = fw) ∧
    (W % 4 ≤ fw →
      1 ≤ fcwOf (wgt_chunk_thin_width W) fw ∧
      fcwOf (wgt_chunk_thin_width W) fw ≤ W / 4 ∧
      0 ≤ fxOf (wgt_chunk_thin_width W) fw ∧ fxOf (wgt_chunk_thin_width W) fw < 4 ∧
      fw = W % 4 + (fcwOf (wgt_chunk_thin_width W) fw - 1) * 4 +
        fxOf (wgt_chunk_thin_width W) fw) := by
  have hthin : wgt_chunk_thin_width W = W % 4 := by
    unfold wgt_chunk_thin_width round_down
    ring
  rw [hthin]
  unfold fcwOf fxOf
  constructor
  · intro h
    rw [if_neg (by omega), if_pos h]
    exact ⟨rfl, rfl⟩
  · intro h
    rw [if_pos (by omega), if_neg (by omega)]
    omega

/-- Witness for C3 amended at W = 7 (thin group of width 3), fw = 5. -/
theorem C3_width_partition_witness :
    (0:ℤ) < 7 ∧ (0:ℤ) ≤ 5 ∧ (5:ℤ) < 7 ∧
      (((5:ℤ) < 7 % 4 →
        fcwOf (wgt_chunk_thin_width 7) 5 = 0 ∧ fxOf (wgt_chunk_thin_width 7) 5 = 5) ∧
      ((7:ℤ) % 4 ≤ 5 →
        1 ≤ fcwOf (wgt_chunk_thin_width 7) 5 ∧
        fcwOf (wgt_chunk_thin_width 7) 5 ≤ 7 / 4 ∧
        0 ≤ fxOf (wgt_chunk_thin_width 7) 5 ∧ fxOf (wgt_chunk_thin_width 7) 5 < 4 ∧
        (5:ℤ) = 7 % 4 + (fcwOf (wgt_chunk_thin_width 7) 5 - 1) * 4 +
          fxOf (wgt_chunk_thin_width 7) 5)) :=
  ⟨by decide, by decide, by decide,
    C3_width_partition 7 5 (by decide) (by decide) (by decide)⟩

/-- C8: the partial-width path runs on the rightmost column tile and visits
exactly floor((out_width mod 4)/2) paired width-outer positions plus -
exactly when out_width is odd - one single sub-column call with skip_wi_1
set at the next width-outer position; when out_width is an exact multiple of
4 it performs no computation at all. -/
theorem C8_partial_width_path (out_width o_width out_y out_c h : ℕ) :
    (out_width % 4 = 0 →
      computePartialWidthCalls out_width o_width out_y out_c h = []) ∧
    (computePartialWidthCalls out_width o_width out_y out_c h).length =
      (out_width % 4) / 2 + (if out_width % 2 = 1 then 1 else 0) ∧
    (∀ call ∈ computePartialWidthCalls out_width o_width out_y out_c h,
      call.out_x = o_width - 1 ∧ call.out_y = out_y ∧ call.out_c = out_c ∧
      call.h = h ∧
      (call.skip = true ↔ out_width % 2 = 1 ∧ call.wo = (out_width % 4) / 2) ∧
      (call.skip = false ↔ call.wo < (out_width % 4) / 2)) := by
  refine ⟨?_, ?_, ?_⟩
  · intro h4
    have h2 : out_width % 2 = 0 := by omega
    simp [computePartialWidthCalls, h4, h2]
  · by_cases h2 : out_width % 2 = 0
    · have h1 : ¬ out_width % 2 = 1 := by omega
      simp [computePartialWidthCalls, h2, h1]
    · have h1 : out_width % 2 = 1 := by omega
      simp [computePartialWidthCalls, h2, h1]
  · intro call hmem
    unfold computePartialWidthCalls at hmem
    rcases List.mem_append.mp hmem with hm | hm
    · rcases List.mem_map.mp hm with ⟨wo, hwo, rfl⟩
      have hlt := List.mem_range.mp hwo
      refine ⟨rfl, rfl, rfl, rfl, ?_, ?_⟩
      · simp only [Bool.false_eq_true, false_iff]
        intro hc
        omega
      · simp only [true_iff]
        exact hlt
    · by_cases h2 : out_width % 2 ≠ 0
      · rw [if_pos h2] at hm
        rcases List.mem_singleton.mp hm with rfl
        refine ⟨rfl, rfl, rfl, rfl, ?_, ?_⟩
        · simp only [true_iff]
          exact ⟨by omega, by simp⟩
        · simp only [Bool.true_eq_false, false_iff]
          omega
      · rw [if_neg h2] at hm
        exact absurd hm (List.not_mem_nil _)

/-- Witness for C8 at out_width = 7 (one pair and one odd single). -/
theorem C8_partial_width_path_witness :
    ((7:ℕ) % 4 = 0 → computePartialWidthCalls 7 2 0 1 3 = []) ∧
    (computePartialWidthCalls 7 2 0 1 3).length =
      (7 % 4) / 2 + (if 7 % 2 = 1 then 1 else 0) ∧
    (∀ call ∈ computePartialWidthCalls 7 2 0 1 3,
      call.out_x = 2 - 1 ∧ call.out_y = 0 ∧ call.out_c = 1 ∧ call.h = 3 ∧
      (call.skip = true ↔ 7 % 2 = 1 ∧ call.wo = (7 % 4) / 2) ∧
      (call.skip = false ↔ call.wo < (7 % 4) / 2)) :=
  C8_partial_width_path 7 2 0 1 3

lemma vor_rot_even (u w1 : Vec) (i : Fin 64) (hi : i.val % 2 = 0)
    (hodd : ∀ j : Fin 64, j.val % 2 = 1 → w1 j = 0) :
    Q6_V_vor_VV u (Q6_V_vror_VR w1 (-2)) i = u i := by
  have hb := i.isLt
  simp only [Q6_V_vor_VV, vror_neg_two_apply]
  rw [hodd ⟨(i.val + 63) % 64, Nat.mod_lt _ (by omega)⟩ (by simp only []; omega)]
  exact ite_zero_self (u i)

/-- One tap of the accumulation, observed at an even lane: the tap's exact
pair sum is rounded once inside computeOuputVector, added to the accumulator
in qf16, and the result narrowed to half precision again - in both the
paired and the skip_wi_1 variants. -/
lemma convTapStep_even (ctx : ConvCtx) (y x c h wo : ℕ) (skip : Bool) (acc : Vec)
    (tap : ℕ × ℕ × ℕ) (i : Fin 64) (hi : i.val % 2 = 0) :
    convTapStep ctx y x c h wo skip acc tap i =
      roundHf (roundHf (tapPairSum ctx y x c h wo tap i) + acc i) := by
  cases skip with
  | true =>
      simp only [convTapStep, Bool.not_true]
      rw [if_neg (by simp)]
      simp only [Q6_Vhf_equals_Vqf16, Q6_Vqf16_vadd_VhfVhf]
      rw [computeOuputVector_even _ _ i hi]
      rfl
  | false =>
      simp only [convTapStep, Bool.not_false, if_true]
      simp only [Q6_Vhf_equals_Vqf16, Q6_Vqf16_vadd_VhfVhf]
      rw [vor_rot_even _ _ i hi (fun j hj => computeOuputVector_odd _ _ j hj)]
      rw [computeOuputVector_even _ _ i hi]
      rfl

lemma foldl_convTapStep_even (ctx : ConvCtx) (y x c h wo : ℕ) (skip : Bool)
    (l : List (ℕ × ℕ × ℕ)) (acc : Vec) (i : Fin 64) (hi : i.val % 2 = 0) :
    l.foldl (convTapStep ctx y x c h wo skip) acc i =
      l.foldl (fun a tap => roundHf (roundHf (tapPairSum ctx y x c h wo tap i) + a))
        (acc i) := by
  induction l generalizing acc with
  | nil => rfl
  | cons t ts ih =>
      simp only [List.foldl_cons]
      rw [ih (convTapStep ctx y x c h wo skip acc t),
        convTapStep_even ctx y x c h wo skip acc t i hi]

/-- C2 amended: the committed output vector is NOT produced by a single
final narrowing: at every even lane, the stored value is the fold that
narrows the accumulator back to half precision once per tap - each tap's
extended-precision pair sum is rounded inside the tap, added to the
accumulator in qf16, and the sum immediately narrowed again - rather than
one narrowing per stored output vector. -/
theorem C2_per_tap_narrowing (ctx : ConvCtx) (y x c h wo : ℕ) (skip : Bool)
    (existing : Vec) (i : Fin 64) (hi : i.val % 2 = 0) :
    computeConvAcc ctx y x c h wo skip existing i =
      (tapList ctx).foldl
        (fun a tap => roundHf (roundHf (tapPairSum ctx y x c h wo tap i) + a))
        (existing i) := by
  unfold computeConvAcc
  exact foldl_convTapStep_even ctx y x c h wo skip (tapList ctx) existing i hi

/-- Small context for the C2 witness: a 1x1x2 filter, unit strides,
one-tile tensors, all-zero memories. -/
def ctxW2 : ConvCtx :=
  ⟨1, 1, 2, 1, 1, ⟨1, 1, 1⟩, ⟨⟨1, 1, 1⟩, fun _ => 0⟩, ⟨1, 1, 1, 1, fun _ _ _ _ _ => 0⟩⟩

/-- Witness for C2 amended at lane 0 of the skip_wi_1 path. -/
theorem C2_per_tap_narrowing_witness :
    ((0 : Fin 64)).val % 2 = 0 ∧
    computeConvAcc ctxW2 0 0 0 0 0 true Q6_V_vzero 0 =
      (tapList ctxW2).foldl
        (fun a tap => roundHf (roundHf (tapPairSum ctxW2 0 0 0 0 0 tap 0) + a))
        (Q6_V_vzero 0) :=
  ⟨by decide, C2_per_tap_narrowing ctxW2 0 0 0 0 0 true Q6_V_vzero 0 (by decide)⟩

/-- Activation memory of the C2 counterexample: channel 0 holds 2048,
channels 2 and 4 hold 1 (halfword addresses 0, 4, 8), all else zero. -/
def actMemC2 : ℤ → ℚ := fun a =>
  if a = 0 then 2048 else if a = 4 then 1 else if a = 8 then 1 else 0

/-- Weight chunk memory of the C2 counterexample: lane 0 of the vectors for
channel pairs 0, 2 and 4 (offsets 0, 64, 128) holds 1, all else zero. -/
def wgtChunkC2 : ℤ → ℤ → ℤ → ℤ → ℤ → ℚ := fun _ _ _ _ off =>
  if off = 0 then 1 else if off = 64 then 1 else if off = 128 then 1 else 0

/-- Context of the C2 counterexample: a 1x1 filter over 6 input channels
(three channel-pair taps), unit strides, one-tile tensors. -/
def ctxC2 : ConvCtx :=
  ⟨1, 1, 6, 1, 1, ⟨1, 1, 1⟩, ⟨⟨1, 1, 1⟩, actMemC2⟩, ⟨1, 1, 1, 1, wgtChunkC2⟩⟩

lemma tapListC2 : tapList ctxC2 = [(0, 0, 0), (0, 0, 2), (0, 0, 4)] := by decide

lemma roundHf_0 : roundHf 0 = 0 := by
  norm_num [roundHf, hfExp, roundHalfEven, List.range_succ]

lemma roundHf_1 : roundHf 1 = 1 := by
  norm_num [roundHf, hfExp, roundHalfEven, List.range_succ]

lemma roundHf_2048 : roundHf 2048 = 2048 := by
  norm_num [roundHf, hfExp, roundHalfEven, List.range_succ]

lemma roundHf_2049 : roundHf 2049 = 2048 := by
  norm_num [roundHf, hfExp, roundHalfEven, List.range_succ]

lemma roundHf_2050 : roundHf 2050 = 2050 := by
  norm_num [roundHf, hfExp, roundHalfEven, List.range_succ]

lemma fin_zero_add_one : ((0 : Fin 64) + 1) = (1 : Fin 64) := by decide

lemma fin64_val_zero : ((0 : Fin 64)).val = 0 := by decide

lemma fin64_val_one : ((1 : Fin 64)).val = 1 := by decide

lemma tapPairSumC2_0 : tapPairSum ctxC2 0 0 0 0 0 (0, 0, 0) 0 = 2048 := by
  simp only [tapPairSum, tapActVec, tapWeightsVec, actElementPtr, ctxC2,
    act_width_access_idx, out_width_idx, act_height_access_idx, out_height_idx,
    getElementPtr, nhwc_at, hwio_at, hwio_to_sm_16b, wgt_chunk_thin_width,
    round_down, fcwOf, fxOf, loadVec, getInputVector_apply, actMemC2, wgtChunkC2,
    fin_zero_add_one, fin64_val_zero, fin64_val_one]
  norm_num

lemma tapPairSumC2_2 : tapPairSum ctxC2 0 0 0 0 0 (0, 0, 2) 0 = 1 := by
  simp only [tapPairSum, tapActVec, tapWeightsVec, actElementPtr, ctxC2,
    act_width_access_idx, out_width_idx, act_height_access_idx, out_height_idx,
    getElementPtr, nhwc_at, hwio_at, hwio_to_sm_16b, wgt_chunk_thin_width,
    round_down, fcwOf, fxOf, loadVec, getInputVector_apply, actMemC2, wgtChunkC2,
    fin_zero_add_one, fin64_val_zero, fin64_val_one]
  norm_num

lemma tapPairSumC2_4 : tapPairSum ctxC2 0 0 0 0 0 (0, 0, 4) 0 = 1 := by
  simp only [tapPairSum, tapActVec, tapWeightsVec, actElementPtr, ctxC2,
    act_width_access_idx, out_width_idx, act_height_access_idx, out_height_idx,
    getElementPtr, nhwc_at, hwio_at, hwio_to_sm_16b, wgt_chunk_thin_width,
    round_down, fcwOf, fxOf, loadVec, getInputVector_apply, actMemC2, wgtChunkC2,
    fin_zero_add_one, fin64_val_zero, fin64_val_one]
  norm_num

/-- C2 counterexample: with three taps (a 1x1 filter over channels 0-5)
whose exact contributions are 2048, 1 and 1 and a pre-zeroed output, the
engine stores 2048: the accumulator is narrowed to half precision after
every tap, and 2048 + 1 rounds back to 2048 (ties to even) at each of the
last two taps.  The spec's extended-precision accumulation with a single
final narrowing yields 2050.  So not all intermediate sums are held in
extended precision with only the final committed value rounded. -/
theorem C2_extended_accumulation_counterexample :
    computeConvAcc ctxC2 0 0 0 0 0 true Q6_V_vzero 0 = 2048 ∧
    specComputeConvAccExtended ctxC2 0 0 0 0 0 Q6_V_vzero 0 = 2050 ∧
    computeConvAcc ctxC2 0 0 0 0 0 true Q6_V_vzero 0 ≠
      specComputeConvAccExtended ctxC2 0 0 0 0 0 Q6_V_vzero 0 := by
  have hcode : computeConvAcc ctxC2 0 0 0 0 0 true Q6_V_vzero 0 = 2048 := by
    unfold computeConvAcc
    rw [foldl_convTapStep_even ctxC2 0 0 0 0 0 true (tapList ctxC2) Q6_V_vzero 0
      (by decide)]
    rw [tapListC2]
    simp only [List.foldl_cons, List.foldl_nil, tapPairSumC2_0, tapPairSumC2_2,
      tapPairSumC2_4, Q6_V_vzero]
    norm_num [roundHf_2048, roundHf_1, roundHf_2049]
  have hspec : specComputeConvAccExtended ctxC2 0 0 0 0 0 Q6_V_vzero 0 = 2050 := by
    unfold specComputeConvAccExtended
    rw [tapListC2]
    simp only [List.foldl_cons, List.foldl_nil, tapPairSumC2_0, tapPairSumC2_2,
      tapPairSumC2_4, Q6_V_vzero]
    norm_num [roundHf_2050]
  refine ⟨hcode, hspec, ?_⟩
  rw [hcode, hspec]
  norm_num

/-- Activation memory of the C1 counterexample: channel 0 of the first tile
position holds 1, all else zero. -/
def actMemC1 : ℤ → ℚ := fun a => if a = 0 then 1 else 0

/-- Weight chunk memory of the C1 counterexample: lane 0 of the first tap
vector holds 1, all else zero. -/
def wgtChunkC1 : ℤ → ℤ → ℤ → ℤ → ℤ → ℚ := fun _ _ _ _ off =>
  if off = 0 then 1 else 0

/-- Context of the C1 counterexample: a 1x1 filter over 2 input channels,
unit strides, one-tile tensors. -/
def ctxC1 : ConvCtx :=
  ⟨1, 1, 2, 1, 1, ⟨1, 1, 1⟩, ⟨⟨1, 1, 1⟩, actMemC1⟩, ⟨1, 1, 1, 1, wgtChunkC1⟩⟩

lemma tapListC1 : tapList ctxC1 = [(0, 0, 0)] := by decide

lemma tapPairSumC1_0 : tapPairSum ctxC1 0 0 0 0 0 (0, 0, 0) 0 = 1 := by
  simp only [tapPairSum, tapActVec, tapWeightsVec, actElementPtr, ctxC1,
    act_width_access_idx, out_width_idx, act_height_access_idx, out_height_idx,
    getElementPtr, nhwc_at, hwio_at, hwio_to_sm_16b, wgt_chunk_thin_width,
    round_down, fcwOf, fxOf, loadVec, getInputVector_apply, actMemC1, wgtChunkC1,
    fin_zero_add_one, fin64_val_zero, fin64_val_one]
  norm_num

/-- C1 counterexample: with pad_top = 1 (accepted by the engine's pad
contract), the spec maps the tap (fh = 0) of output row 0 to activation row
-1 - a top out-of-range location whose read the claim says is served from
the pre-zeroed zero block.  The engine does no such substitution: it ignores
the pad offsets, reads activation row 0 from the activation tensor, and
stores 1, while the spec-modelled zero-block substitution stores 0. -/
theorem C1_zero_block_counterexample :
    specMappedActRow (out_height_idx 0 0) 1 0 1 = -1 ∧
    specMappedActRow (out_height_idx 0 0) 1 0 1 < 0 ∧
    computeConvAcc ctxC1 0 0 0 0 0 true Q6_V_vzero 0 = 1 ∧
    specComputeConvAccPadded ctxC1 1 0 0 0 0 0 0 Q6_V_vzero 0 = 0 ∧
    computeConvAcc ctxC1 0 0 0 0 0 true Q6_V_vzero 0 ≠
      specComputeConvAccPadded ctxC1 1 0 0 0 0 0 0 Q6_V_vzero 0 := by
  have h1 : specMappedActRow (out_height_idx 0 0) 1 0 1 = -1 := by decide
  have hcode : computeConvAcc ctxC1 0 0 0 0 0 true Q6_V_vzero 0 = 1 := by
    unfold computeConvAcc
    rw [foldl_convTapStep_even ctxC1 0 0 0 0 0 true (tapList ctxC1) Q6_V_vzero 0
      (by decide)]
    rw [tapListC1]
    simp only [List.foldl_cons, List.foldl_nil, tapPairSumC1_0, Q6_V_vzero]
    norm_num [roundHf_1]
  have hspec : specComputeConvAccPadded ctxC1 1 0 0 0 0 0 0 Q6_V_vzero 0 = 0 := by
    unfold specComputeConvAccPadded
    rw [tapListC1]
    simp only [List.foldl_cons, List.foldl_nil, Nat.cast_zero]
    rw [show specTapActVecPadded ctxC1 1 0 0 0 0 0 0 0 0 0 = Q6_V_vzero by
      simp only [specTapActVecPadded, specMappedActRow, specMappedActCol,
        out_height_idx, out_width_idx, ctxC2, ctxC1]
      norm_num]
    simp only [Q6_Vhf_equals_Vqf16, Q6_Vqf16_vadd_VhfVhf]
    rw [computeOuputVector_even _ _ 0 (by decide)]
    simp only [Q6_V_vzero]
    norm_num [roundHf_0]
  refine ⟨h1, by omega, hcode, hspec, ?_⟩
  rw [hcode, hspec]
  norm_num

/-- C1 amended: the engine performs no zero-block substitution: the pad
offsets never enter its index mapping, every tap's mapped activation
location is non-negative (so no top/left out-of-range read can arise), and
the layer's result is independent of the zero_block argument, which is never
read. -/
theorem C1_no_zero_block_reads
    (stride_h stride_w out_act_y out_act_x h wo wi fh fw : ℤ)
    (hsh : 0 ≤ stride_h) (hsw : 0 ≤ stride_w) (hy : 0 ≤ out_act_y)
    (hx : 0 ≤ out_act_x) (hh : 0 ≤ h) (hwo : 0 ≤ wo) (hwi : 0 ≤ wi)
    (hfh : 0 ≤ fh) (hfw : 0 ≤ fw) :
    0 ≤ act_height_access_idx out_act_y h stride_h fh ∧
    0 ≤ act_width_access_idx out_act_x wo wi stride_w fw ∧
    0 ≤ act_height_access_idx out_act_y h stride_h fh / 8 ∧
    0 ≤ act_width_access_idx out_act_x wo wi stride_w fw / 4 ∧
    (∀ (cr_out cr_act : BlockedTensor) (cr_filt : WgtTensor)
      (out_shape act_shape : Shape4) (bias : FlatTensor) (filt_shape : Shape4)
      (pads : ℤ × ℤ) (relu : Bool) (zb zb' : ℤ),
      conv_layer_fp16_hvx cr_out cr_act cr_filt out_shape act_shape bias
        filt_shape pads relu stride_h stride_w zb =
      conv_layer_fp16_hvx cr_out cr_act cr_filt out_shape act_shape bias
        filt_shape pads relu stride_h stride_w zb') := by
  have h1 : 0 ≤ out_height_idx out_act_y h := by
    unfold out_height_idx; omega
  have h2 : 0 ≤ out_width_idx out_act_x wo wi := by
    unfold out_width_idx; omega
  have hh1 : 0 ≤ act_height_access_idx out_act_y h stride_h fh := by
    unfold act_height_access_idx
    have := mul_nonneg h1 hsh
    omega
  have hw1 : 0 ≤ act_width_access_idx out_act_x wo wi stride_w fw := by
    unfold act_width_access_idx
    have := mul_nonneg h2 hsw
    omega
  exact ⟨hh1, hw1, Int.ediv_nonneg hh1 (by omega), Int.ediv_nonneg hw1 (by omega),
    fun _ _ _ _ _ _ _ _ _ _ _ => rfl⟩

/-- Witness for C1 amended at unit strides and the first tap of the first
output position. -/
theorem C1_no_zero_block_reads_witness :
    0 ≤ act_height_access_idx 0 0 1 0 ∧ 0 ≤ act_width_access_idx 0 0 0 1 0 ∧
    0 ≤ act_height_access_idx 0 0 1 0 / 8 ∧
    0 ≤ act_width_access_idx 0 0 0 1 0 / 4 :=
  ⟨(C1_no_zero_block_reads 1 1 0 0 0 0 0 0 0 (by decide) (by decide) (by decide)
      (by decide) (by decide) (by decide) (by decide) (by decide) (by decide)).1,
    (C1_no_zero_block_reads 1 1 0 0 0 0 0 0 0 (by decide) (by decide) (by decide)
      (by decide) (by decide) (by decide) (by decide) (by decide) (by decide)).2.1,
    (C1_no_zero_block_reads 1 1 0 0 0 0 0 0 0 (by decide) (by decide) (by decide)
      (by decide) (by decide) (by decide) (by decide) (by decide) (by decide)).2.2.1,
    (C1_no_zero_block_reads 1 1 0 0 0 0 0 0 0 (by decide) (by decide) (by decide)
      (by decide) (by decide) (by decide) (by decide) (by decide) (by decide)).2.2.2.1⟩

/-- C10: the output of conv_layer_fp16_hvx is independent of the relu flag,
the bias buffer, the zero_block argument, and the pad offsets within their
accepted ranges (0-7 and 0-3): two invocations differing only in these
inputs return identical output memory. -/
theorem C10_noninterference (cr_out cr_act : BlockedTensor) (cr_filt : WgtTensor)
    (out_shape act_shape : Shape4) (bias bias' : FlatTensor) (filt_shape : Shape4)
    (pt pt' pl pl' : ℤ) (relu relu' : Bool) (stride_h stride_w : ℤ) (zb zb' : ℤ)
    (hpt0 : 0 ≤ pt) (hpt : pt < 8) (hpl0 : 0 ≤ pl) (hpl : pl < 4)
    (hpt0' : 0 ≤ pt') (hpt' : pt' < 8) (hpl0' : 0 ≤ pl') (hpl' : pl' < 4) :
    conv_layer_fp16_hvx cr_out cr_act cr_filt out_shape act_shape bias filt_shape
      (pt, pl) relu stride_h stride_w zb =
    conv_layer_fp16_hvx cr_out cr_act cr_filt out_shape act_shape bias' filt_shape
      (pt', pl') relu' stride_h stride_w zb' := by
  simp only [conv_layer_fp16_hvx]
  rw [if_neg (show ¬ (8:ℤ) ≤ pt by omega), if_neg (show ¬ (4:ℤ) ≤ pl by omega),
    if_neg (show ¬ (8:ℤ) ≤ pt' by omega), if_neg (show ¬ (4:ℤ) ≤ pl' by omega)]

/-- Witness for C10: two concrete invocations differing in relu, bias,
zero_block and in-range pads coincide. -/
theorem C10_noninterference_witness :
    (0:ℤ) ≤ 0 ∧ (0:ℤ) < 8 ∧ (0:ℤ) ≤ 0 ∧ (0:ℤ) < 4 ∧
    (0:ℤ) ≤ 7 ∧ (7:ℤ) < 8 ∧ (0:ℤ) ≤ 3 ∧ (3:ℤ) < 4 ∧
    conv_layer_fp16_hvx ⟨⟨1, 1, 1⟩, fun _ => 0⟩ ⟨⟨1, 1, 1⟩, fun _ => 0⟩
        ⟨1, 1, 1, 1, fun _ _ _ _ _ => 0⟩ ⟨1, 1, 1, 1⟩ ⟨1, 1, 1, 1⟩
        ⟨1, fun _ => 0⟩ ⟨1, 1, 2, 32⟩ (0, 0) false 1 1 0 =
      conv_layer_fp16_hvx ⟨⟨1, 1, 1⟩, fun _ => 0⟩ ⟨⟨1, 1, 1⟩, fun _ => 0⟩
        ⟨1, 1, 1, 1, fun _ _ _ _ _ => 0⟩ ⟨1, 1, 1, 1⟩ ⟨1, 1, 1, 1⟩
        ⟨99, fun _ => 5⟩ ⟨1, 1, 2, 32⟩ (7, 3) true 1 1 12345 :=
  ⟨by decide, by decide, by decide, by decide, by decide, by decide, by decide,
    by decide,
    C10_noninterference ⟨⟨1, 1, 1⟩, fun _ => 0⟩ ⟨⟨1, 1, 1⟩, fun _ => 0⟩
      ⟨1, 1, 1, 1, fun _ _ _ _ _ => 0⟩ ⟨1, 1, 1, 1⟩ ⟨1, 1, 1, 1⟩
      ⟨1, fun _ => 0⟩ ⟨99, fun _ => 5⟩ ⟨1, 1, 2, 32⟩ 0 7 0 3 false true 1 1 0 12345
      (by decide) (by decide) (by decide) (by decide) (by decide) (by decide)
      (by decide) (by decide)⟩

lemma prepare_nhwc_cTiles (t : DLTensor4) (b : Bool) :
    (prepare_nhwc t b).shape.cTiles = (t.shape.s3 + 31) / 32 := by
  cases b <;> rfl

lemma prepare_hwio_shape2 (t : DLTensor4) :
    (prepare_hwio t).shape2 = (t.shape.s2 + 31) / 32 := rfl

lemma prepare_hwio_shape3 (t : DLTensor4) :
    (prepare_hwio t).shape3 = (t.shape.s3 + 31) / 32 := rfl

lemma conv_layer_none_iff (cr_out cr_act : BlockedTensor) (cr_filt : WgtTensor)
    (out_shape act_shape : Shape4) (bias : FlatTensor) (filt_shape : Shape4)
    (pt pl : ℤ) (relu : Bool) (sh sw : ℤ) (zb : ℤ) :
    conv_layer_fp16_hvx cr_out cr_act cr_filt out_shape act_shape bias filt_shape
      (pt, pl) relu sh sw zb = none ↔
      (8 ≤ pt ∨ 4 ≤ pl ∨ cr_act.shape.cTiles ≠ cr_filt.shape2 ∨
        cr_out.shape.cTiles ≠ cr_filt.shape3) := by
  simp only [conv_layer_fp16_hvx]
  split_ifs <;> simp_all

/-- C7 counterexample: pad_top = -1 is outside the range the spec requires
(0 ≤ pad_top < 8), yet the call does not abort: the engine only bounds the
pad offsets from above (ICHECK_LT), so with otherwise valid arguments the
kernel runs to completion on this out-of-range pad. -/
theorem C7_negative_pad_counterexample :
    ((-1 : ℤ) < 0) ∧
    (conv2d_packed_fp16 ⟨⟨1, 8, 4, 32⟩, fun _ => 0⟩ ⟨⟨3, 3, 32, 32⟩, fun _ => 0⟩
      (-1) 0 1 1 ⟨⟨1, 6, 2, 32⟩, fun _ => 0⟩).isOk = true :=
  ⟨by decide, by rfl⟩

/-- C7 amended: the call aborts - returning an error carrying no partial
result - exactly when the activation or output batch differs from 1, a
weight dimension is zero, a pad offset reaches its upper bound (8 for top,
4 for left; negative offsets are NOT rejected), or the blocked channel
extents disagree with the prepared weight chunk grid; every check runs
before any compute, and once all pass the call returns a result, so no
error arises inside the compute loop. -/
theorem C7_abort_conditions (act wgt : DLTensor4) (pt pl sh sw : ℤ)
    (out : DLTensor4) :
    (conv2d_packed_fp16 act wgt pt pl sh sw out).isOk = true ↔
      ¬(act.shape.s0 ≠ 1 ∨ out.shape.s0 ≠ 1 ∨ wgt.shape.s0 = 0 ∨
        wgt.shape.s1 = 0 ∨ wgt.shape.s2 = 0 ∨ wgt.shape.s3 = 0 ∨
        8 ≤ pt ∨ 4 ≤ pl ∨
        (act.shape.s3 + 31) / 32 ≠ (wgt.shape.s2 + 31) / 32 ∨
        (out.shape.s3 + 31) / 32 ≠ (wgt.shape.s3 + 31) / 32) := by
  simp only [conv2d_packed_fp16]
  split_ifs with h1 h2 h3 h4 h5 h6
  · simp [Except.isOk, Except.toBool, h1]
  · simp [Except.isOk, Except.toBool, h2]
  · simp [Except.isOk, Except.toBool, h3]
  · simp [Except.isOk, Except.toBool, h4]
  · simp [Except.isOk, Except.toBool, h5]
  · simp [Except.isOk, Except.toBool, h6]
  · split
    · rename_i heq
      rw [conv_layer_none_iff, prepare_nhwc_cTiles, prepare_nhwc_cTiles,
        prepare_hwio_shape2, prepare_hwio_shape3] at heq
      simp only [Except.isOk, Except.toBool]
      constructor
      · intro hfalse
        simp at hfalse
      · intro hneg
        exfalso
        apply hneg
        tauto
    · rename_i m heq
      have hne : conv_layer_fp16_hvx (prepare_nhwc out false) (prepare_nhwc act true)
          (prepare_hwio wgt) out.shape act.shape ⟨wgt.shape.s3, fun _ => 0⟩
          wgt.shape (pt, pl) false sh sw 0 ≠ none := by
        rw [heq]
        simp
      rw [Ne, conv_layer_none_iff, prepare_nhwc_cTiles, prepare_nhwc_cTiles,
        prepare_hwio_shape2, prepare_hwio_shape3] at hne
      push_neg at hne
      push_neg at h1 h2
      simp only [Except.isOk, Except.toBool, true_iff]
      push_neg
      exact ⟨h1, h2, h3, h4, h5, h6, by omega, by omega,
        hne.2.2.1, hne.2.2.2⟩

/-- The (channel-unit, row-tile, column-tile, row, width-outer) output
position one computeConv call stores to (its single vector store). -/
def callPos (call : ConvCall) : ℕ × ℕ × ℕ × ℕ × ℕ :=
  (call.out_c, call.out_y, call.out_x, call.h, call.wo)

/-- Column-side shape of a scheduled call: a full column tile, or the
partial-width path on the rightmost tile (paired positions, or the odd
single with skip set). -/
def colCallOk (W oW : ℕ) (call : ConvCall) : Prop :=
  (call.out_x < W / 4 ∧ call.wo < 2 ∧ call.skip = false) ∨
    (call.out_x = oW - 1 ∧
      ((call.wo < (W % 4) / 2 ∧ call.skip = false) ∨
        (W % 2 = 1 ∧ call.wo = (W % 4) / 2 ∧ call.skip = true)))

/-- Row-side shape of a scheduled call: a full row tile, or the bottom
remainder tile. -/
def rowCallOk (H oH : ℕ) (call : ConvCall) : Prop :=
  (call.out_y < H / 8 ∧ call.h < 8) ∨ (call.out_y = oH - 1 ∧ call.h < H % 8)

/-- A valid output store position of the driver's tile grid: channel unit in
range, row in a full or remainder row tile, column a full width-outer pair
slot or one visited by the partial-width path. -/
def validStorePos (H W oH oW C : ℕ) (p : ℕ × ℕ × ℕ × ℕ × ℕ) : Prop :=
  p.1 < C ∧
    ((p.2.1 < H / 8 ∧ p.2.2.2.1 < 8) ∨
      (H % 8 ≠ 0 ∧ p.2.1 = oH - 1 ∧ p.2.2.2.1 < H % 8)) ∧
    ((p.2.2.1 < W / 4 ∧ p.2.2.2.2 < 2) ∨
      (W % 4 ≠ 0 ∧ p.2.2.1 = oW - 1 ∧
        (p.2.2.2.2 < (W % 4) / 2 ∨ (W % 2 = 1 ∧ p.2.2.2.2 = (W % 4) / 2))))

lemma mem_computeFullWidthCalls {call : ConvCall} {y x c h : ℕ} :
    call ∈ computeFullWidthCalls y x c h ↔
      call.out_y = y ∧ call.out_x = x ∧ call.out_c = c ∧ call.h = h ∧
        call.wo < 2 ∧ call.skip = false := by
  simp only [computeFullWidthCalls, List.mem_map, List.mem_range]
  constructor
  · rintro ⟨wo, hwo, rfl⟩
    exact ⟨rfl, rfl, rfl, rfl, hwo, rfl⟩
  · rintro ⟨h1, h2, h3, h4, h5, h6⟩
    exact ⟨call.wo, h5, by cases call; simp_all⟩

lemma mem_computePartialWidthCalls {call : ConvCall} {W oW y c h : ℕ} :
    call ∈ computePartialWidthCalls W oW y c h ↔
      call.out_y = y ∧ call.out_x = oW - 1 ∧ call.out_c = c ∧ call.h = h ∧
        ((call.wo < (W % 4) / 2 ∧ call.skip = false) ∨
          (W % 2 = 1 ∧ call.wo = (W % 4) / 2 ∧ call.skip = true)) := by
  simp only [computePartialWidthCalls]
  by_cases h2 : W % 2 ≠ 0
  · rw [if_pos h2]
    simp only [List.mem_append, List.mem_map, List.mem_range, List.mem_singleton]
    constructor
    · rintro (⟨wo, hwo, rfl⟩ | rfl)
      · exact ⟨rfl, rfl, rfl, rfl, Or.inl ⟨hwo, rfl⟩⟩
      · exact ⟨rfl, rfl, rfl, rfl, Or.inr ⟨by omega, rfl, rfl⟩⟩
    · rintro ⟨e1, e2, e3, e4, (⟨h5, h6⟩ | ⟨h5, h6, h7⟩)⟩
      · exact Or.inl ⟨call.wo, h5, by cases call; simp_all⟩
      · exact Or.inr (by cases call; simp_all)
  · rw [if_neg h2]
    simp only [List.mem_append, List.mem_map, List.mem_range, List.not_mem_nil,
      or_false]
    constructor
    · rintro ⟨wo, hwo, rfl⟩
      exact ⟨rfl, rfl, rfl, rfl, Or.inl ⟨hwo, rfl⟩⟩
    · rintro ⟨e1, e2, e3, e4, (⟨h5, h6⟩ | ⟨h5, h6, h7⟩)⟩
      · exact ⟨call.wo, h5, by cases call; simp_all⟩
      · exact absurd h5 (by omega)

lemma mem_rowTileCalls {call : ConvCall} {W oW c y : ℕ} :
    call ∈ rowTileCalls W oW c y ↔
      call.out_c = c ∧ call.out_y = y ∧ call.h < 8 ∧ colCallOk W oW call := by
  unfold rowTileCalls colCallOk
  simp only [List.mem_append, List.mem_flatMap, List.mem_range,
    mem_computeFullWidthCalls, mem_computePartialWidthCalls]
  constructor
  · rintro (⟨x, hx, a, ha, e1, e2, e3, e4, e5, e6⟩ | ⟨a, ha, e1, e2, e3, e4, e5⟩)
    · exact ⟨e3, e1, by omega, Or.inl ⟨by omega, e5, e6⟩⟩
    · exact ⟨e3, e1, by omega, Or.inr ⟨e2, e5⟩⟩
  · rintro ⟨hc, hy, hh, (⟨hx, hwo, hskip⟩ | ⟨hx, hrest⟩)⟩
    · exact Or.inl ⟨call.out_x, hx, call.h, hh, hy, rfl, hc, rfl, hwo, hskip⟩
    · exact Or.inr ⟨call.h, hh, hy, hx, hc, rfl, hrest⟩

lemma mem_bottomRowCalls {call : ConvCall} {H W oH oW c : ℕ} :
    call ∈ bottomRowCalls H W oH oW c ↔
      call.out_c = c ∧ call.out_y = oH - 1 ∧ call.h < H % 8 ∧
        colCallOk W oW call := by
  unfold bottomRowCalls colCallOk
  simp only [List.mem_flatMap, List.mem_range, List.mem_append,
    mem_computeFullWidthCalls, mem_computePartialWidthCalls]
  constructor
  · rintro ⟨a, ha, (⟨x, hx, e1, e2, e3, e4, e5, e6⟩ | ⟨e1, e2, e3, e4, e5⟩)⟩
    · exact ⟨e3, e1, by omega, Or.inl ⟨by omega, e5, e6⟩⟩
    · exact ⟨e3, e1, by omega, Or.inr ⟨e2, e5⟩⟩
  · rintro ⟨hc, hy, hh, (⟨hx, hwo, hskip⟩ | ⟨hx, hrest⟩)⟩
    · exact ⟨call.h, hh, Or.inl ⟨call.out_x, hx, hy, rfl, hc, rfl, hwo, hskip⟩⟩
    · exact ⟨call.h, hh, Or.inr ⟨hy, hx, hc, rfl, hrest⟩⟩

lemma mem_convLayerCalls {call : ConvCall} {H W oH oW C : ℕ} :
    call ∈ convLayerCalls H W oH oW C ↔
      call.out_c < C ∧ rowCallOk H oH call ∧ colCallOk W oW call := by
  unfold convLayerCalls rowCallOk
  simp only [List.mem_flatMap, List.mem_range, List.mem_append,
    mem_rowTileCalls, mem_bottomRowCalls]
  constructor
  · rintro ⟨c, hc, (⟨y, hy, e1, e2, e3, e4⟩ | ⟨e1, e2, e3, e4⟩)⟩
    · exact ⟨by omega, Or.inl ⟨by omega, e3⟩, e4⟩
    · exact ⟨by omega, Or.inr ⟨e2, e3⟩, e4⟩
  · rintro ⟨hc, (⟨hy, hh⟩ | ⟨hy, hh⟩), hcol⟩
    · exact ⟨call.out_c, hc, Or.inl ⟨call.out_y, hy, rfl, rfl, hh, hcol⟩⟩
    · exact ⟨call.out_c, hc, Or.inr ⟨rfl, hy, hh, hcol⟩⟩

lemma nodup_computeFullWidthCalls (y x c h : ℕ) :
    (computeFullWidthCalls y x c h).Nodup := by
  refine List.Nodup.map_on ?_ (List.nodup_range 2)
  intro a _ b _ hab
  simpa using congrArg ConvCall.wo hab

lemma nodup_computePartialWidthCalls (W oW y c h : ℕ) :
    (computePartialWidthCalls W oW y c h).Nodup := by
  simp only [computePartialWidthCalls]
  refine List.Nodup.append ?_ ?_ ?_
  · refine List.Nodup.map_on ?_ (List.nodup_range _)
    intro a _ b _ hab
    simpa using congrArg ConvCall.wo hab
  · split
    · exact List.nodup_singleton _
    · exact List.nodup_nil
  · intro a ha hb
    rcases List.mem_map.mp ha with ⟨wo, hwo, rfl⟩
    have hlt := List.mem_range.mp hwo
    split at hb
    · have heq := List.mem_singleton.mp hb
      simpa using congrArg ConvCall.skip heq
    · exact List.not_mem_nil _ hb

lemma nodup_fullWidthHBlock (y x c : ℕ) :
    ((List.range 8).flatMap fun h => computeFullWidthCalls y x c h).Nodup := by
  rw [List.nodup_flatMap]
  refine ⟨fun h _ => nodup_computeFullWidthCalls y x c h, ?_⟩
  refine (List.pairwise_lt_range 8).imp ?_
  intro a b hab call hca hcb
  rw [mem_computeFullWidthCalls] at hca hcb
  omega

lemma nodup_partialWidthHBlock (W oW c y : ℕ) :
    ((List.range 8).flatMap fun h => computePartialWidthCalls W oW y c h).Nodup := by
  rw [List.nodup_flatMap]
  refine ⟨fun h _ => nodup_computePartialWidthCalls W oW y c h, ?_⟩
  refine (List.pairwise_lt_range 8).imp ?_
  intro a b hab call hca hcb
  rw [mem_computePartialWidthCalls] at hca hcb
  omega

lemma nodup_fullXBlock (W y c : ℕ) :
    ((List.range (W / 4)).flatMap fun x =>
      (List.range 8).flatMap fun h => computeFullWidthCalls y x c h).Nodup := by
  rw [List.nodup_flatMap]
  refine ⟨fun x _ => nodup_fullWidthHBlock y x c, ?_⟩
  refine (List.pairwise_lt_range _).imp ?_
  intro a b hab call hca hcb
  simp only [List.mem_flatMap, List.mem_range, mem_computeFullWidthCalls] at hca hcb
  rcases hca with ⟨h1, hh1, e1, e2, e3, e4, e5, e6⟩
  rcases hcb with ⟨h2, hh2, f1, f2, f3, f4, f5, f6⟩
  omega

lemma nodup_rowTileCalls (W oW c y : ℕ) (hW : oW = (W + 3) / 4) :
    (rowTileCalls W oW c y).Nodup := by
  unfold rowTileCalls
  refine List.Nodup.append (nodup_fullXBlock W y c)
    (nodup_partialWidthHBlock W oW c y) ?_
  intro call ha hb
  simp only [List.mem_flatMap, List.mem_range, mem_computeFullWidthCalls] at ha
  simp only [List.mem_flatMap, List.mem_range, mem_computePartialWidthCalls] at hb
  rcases ha with ⟨x, hx, a, ha8, e1, e2, e3, e4, e5, e6⟩
  rcases hb with ⟨b, hb8, f1, f2, f3, f4, f5⟩
  rcases f5 with ⟨f5, _⟩ | ⟨f5, _, _⟩ <;> omega

lemma nodup_bottomRowCalls (H W oH oW c : ℕ) (hW : oW = (W + 3) / 4) :
    (bottomRowCalls H W oH oW c).Nodup := by
  unfold bottomRowCalls
  rw [List.nodup_flatMap]
  constructor
  · intro h _
    refine List.Nodup.append ?_ (nodup_computePartialWidthCalls W oW (oH - 1) c h) ?_
    · rw [List.nodup_flatMap]
      refine ⟨fun x _ => nodup_computeFullWidthCalls (oH - 1) x c h, ?_⟩
      refine (List.pairwise_lt_range _).imp ?_
      intro a b hab call hca hcb
      rw [mem_computeFullWidthCalls] at hca hcb
      omega
    · intro call ha hb
      simp only [List.mem_flatMap, List.mem_range, mem_computeFullWidthCalls] at ha
      rw [mem_computePartialWidthCalls] at hb
      rcases ha with ⟨x, hx, e1, e2, e3, e4, e5, e6⟩
      obtain ⟨f1, f2, f3, f4, f5⟩ := hb
      rcases f5 with ⟨f5, _⟩ | ⟨f5, _, _⟩ <;> omega
  · refine (List.pairwise_lt_range _).imp ?_
    intro a b hab call hca hcb
    simp only [List.mem_append, List.mem_flatMap, List.mem_range,
      mem_computeFullWidthCalls, mem_computePartialWidthCalls] at hca hcb
    rcases hca with ⟨x, hx, e1, e2, e3, e4, e5, e6⟩ | ⟨e1, e2, e3, e4, e5⟩ <;>
      rcases hcb with ⟨x', hx', f1, f2, f3, f4, f5, f6⟩ | ⟨f1, f2, f3, f4, f5⟩ <;>
      omega

lemma nodup_perChannelCalls (H W oH oW c : ℕ) (hW : oW = (W + 3) / 4)
    (hH : oH = (H + 7) / 8) :
    (((List.range (H / 8)).flatMap fun y => rowTileCalls W oW c y)
      ++ bottomRowCalls H W oH oW c).Nodup := by
  refine List.Nodup.append ?_ (nodup_bottomRowCalls H W oH oW c hW) ?_
  · rw [List.nodup_flatMap]
    refine ⟨fun y _ => nodup_rowTileCalls W oW c y hW, ?_⟩
    refine (List.pairwise_lt_range _).imp ?_
    intro a b hab call hca hcb
    rw [mem_rowTileCalls] at hca hcb
    omega
  · intro call ha hb
    simp only [List.mem_flatMap, List.mem_range, mem_rowTileCalls] at ha
    rw [mem_bottomRowCalls] at hb
    rcases ha with ⟨y, hy, e1, e2, e3, e4⟩
    obtain ⟨f1, f2, f3, f4⟩ := hb
    omega

lemma nodup_convLayerCalls (H W oH oW C : ℕ) (hW : oW = (W + 3) / 4)
    (hH : oH = (H + 7) / 8) :
    (convLayerCalls H W oH oW C).Nodup := by
  unfold convLayerCalls
  rw [List.nodup_flatMap]
  refine ⟨fun c _ => nodup_perChannelCalls H W oH oW c hW hH, ?_⟩
  refine (List.pairwise_lt_range _).imp ?_
  intro a b hab call hca hcb
  simp only [List.mem_append, List.mem_flatMap, List.mem_range, mem_rowTileCalls,
    mem_bottomRowCalls] at hca hcb
  rcases hca with ⟨y, hy, e1, e2, e3, e4⟩ | ⟨e1, e2, e3, e4⟩ <;>
    rcases hcb with ⟨y', hy', f1, f2, f3, f4⟩ | ⟨f1, f2, f3, f4⟩ <;>
    omega

lemma callPos_inj_on {H W oH oW C : ℕ} (hW : oW = (W + 3) / 4)
    {a b : ConvCall} (ha : a ∈ convLayerCalls H W oH oW C)
    (hb : b ∈ convLayerCalls H W oH oW C) (hab : callPos a = callPos b) :
    a = b := by
  rw [mem_convLayerCalls] at ha hb
  obtain ⟨hc1, hr1, hcol1⟩ := ha
  obtain ⟨hc2, hr2, hcol2⟩ := hb
  have e1 : a.out_c = b.out_c := congrArg (fun p => p.1) hab
  have e2 : a.out_y = b.out_y := congrArg (fun p => p.2.1) hab
  have e3 : a.out_x = b.out_x := congrArg (fun p => p.2.2.1) hab
  have e4 : a.h = b.h := congrArg (fun p => p.2.2.2.1) hab
  have e5 : a.wo = b.wo := congrArg (fun p => p.2.2.2.2) hab
  have e6 : a.skip = b.skip := by
    unfold colCallOk at hcol1 hcol2
    rcases hcol1 with ⟨g1, g2, g3⟩ | ⟨g1, ⟨g4, g5⟩ | ⟨g4, g5, g6⟩⟩ <;>
      rcases hcol2 with ⟨k1, k2, k3⟩ | ⟨k1, ⟨k4, k5⟩ | ⟨k4, k5, k6⟩⟩
    · rw [g3, k3]
    · rw [g3, k5]
    · exfalso; omega
    · rw [g5, k3]
    · rw [g5, k5]
    · exfalso; omega
    · exfalso; omega
    · exfalso; omega
    · rw [g6, k6]
  cases a
  cases b
  simp only [ConvCall.mk.injEq]
  exact ⟨e2, e3, e1, e4, e5, e6⟩

/-- C9: across one invocation, the driver schedule stores every output
vector position (output-channel unit, row tile, column tile, row in tile,
width outer) at most once - in particular the full-tile and partial-tile
loop nests never address the same position - and the positions stored are
exactly the valid positions of the output tile grid; activations and
weights enter the run only as read-only inputs. -/
theorem C9_store_schedule (H W oH oW C : ℕ) (hW : oW = (W + 3) / 4)
    (hH : oH = (H + 7) / 8) :
    ((convLayerCalls H W oH oW C).map callPos).Nodup ∧
    ∀ p : ℕ × ℕ × ℕ × ℕ × ℕ,
      (p ∈ (convLayerCalls H W oH oW C).map callPos ↔
        validStorePos H W oH oW C p) := by
  constructor
  · exact List.Nodup.map_on (fun a ha b hb hab => callPos_inj_on hW ha hb hab)
      (nodup_convLayerCalls H W oH oW C hW hH)
  · intro p
    rw [List.mem_map]
    constructor
    · rintro ⟨call, hcall, rfl⟩
      rw [mem_convLayerCalls] at hcall
      obtain ⟨hc, hr, hcol⟩ := hcall
      unfold rowCallOk at hr
      unfold colCallOk at hcol
      unfold validStorePos callPos
      refine ⟨hc, ?_, ?_⟩
      · rcases hr with ⟨h1, h2⟩ | ⟨h1, h2⟩
        · exact Or.inl ⟨h1, h2⟩
        · exact Or.inr ⟨by omega, h1, h2⟩
      · rcases hcol with ⟨h1, h2, h3⟩ | ⟨h1, ⟨h4, h5⟩ | ⟨h4, h5, h6⟩⟩
        · exact Or.inl ⟨h1, h2⟩
        · exact Or.inr ⟨by omega, h1, Or.inl h4⟩
        · exact Or.inr ⟨by omega, h1, Or.inr ⟨h4, h5⟩⟩
    · intro hp
      obtain ⟨c, y, x, h, wo⟩ := p
      obtain ⟨hc, hr, hcol⟩ := hp
      have hrow : ∀ s : Bool, rowCallOk H oH ⟨y, x, c, h, wo, s⟩ := by
        intro s
        unfold rowCallOk
        rcases hr with ⟨h1, h2⟩ | ⟨_, h1, h2⟩
        · exact Or.inl ⟨h1, h2⟩
        · exact Or.inr ⟨h1, h2⟩
      rcases hcol with ⟨hx, hwo⟩ | ⟨hW4, hx, hpair | ⟨hodd, hsingle⟩⟩
      · refine ⟨⟨y, x, c, h, wo, false⟩, ?_, rfl⟩
        rw [mem_convLayerCalls]
        exact ⟨hc, hrow false, Or.inl ⟨hx, hwo, rfl⟩⟩
      · refine ⟨⟨y, x, c, h, wo, false⟩, ?_, rfl⟩
        rw [mem_convLayerCalls]
        exact ⟨hc, hrow false, Or.inr ⟨hx, Or.inl ⟨hpair, rfl⟩⟩⟩
      · refine ⟨⟨y, x, c, h, wo, true⟩, ?_, rfl⟩
        rw [mem_convLayerCalls]
        exact ⟨hc, hrow true, Or.inr ⟨hx, Or.inr ⟨hodd, hsingle, rfl⟩⟩⟩

/-- Witness for C9: the schedule for a 10x7 true output extent over its 2x2
blocked tile grid with one output-channel unit stores pairwise-distinct
positions. -/
theorem C9_store_schedule_witness :
    ((convLayerCalls 10 7 2 2 1).map callPos).Nodup :=
  (C9_store_schedule 10 7 2 2 1 (by decide) (by decide)).1

end HexConv
